import Mathlib

/-!
# PRTscan: a shallow embedding of `cmd/logic.go`

`RunScan` clones a repository, lists its branches (default branch first), checks out the
workflow directory of every branch and prints the URL of every workflow file whose `on`
field mentions `pull_request_target`.

The third-party collaborators (go-git, go-billy, goccy/go-yaml, gjson) are not part of the
repository.  They are taken as parameters: a `World` gives the result of every collaborator
call.  Standard output and standard error are lists of lines threaded through a `State`.
-/

namespace PRTscan

/-! ## Data model -/

/-- A Go `[]byte`. -/
abbrev Bytes := List (Fin 256)

/-- A Go `error` value, as far as `RunScan` distinguishes them: the sentinel
`git.ErrSparseResetDirectoryNotFound`, the errors for which `os.IsNotExist` holds, and all
other errors.  The string is the text of `err.Error()`. -/
inductive GoError where
  | ErrSparseResetDirectoryNotFound : GoError
  | notExist (msg : String) : GoError
  | other (msg : String) : GoError
  deriving DecidableEq

/-- The text `%v` prints for an error. -/
def GoError.text : GoError → String
  | .ErrSparseResetDirectoryNotFound => "sparse-reset directory not found on commit"
  | .notExist msg => msg
  | .other msg => msg

/-- Go `os.IsNotExist`. -/
def IsNotExist : GoError → Bool
  | .notExist _ => true
  | _ => false

/-- The struct `ScanInput` filled in by `root.go`. -/
structure ScanInput where
  RepositoryURL : String
  Token : String
  Complete : Bool
  Quiet : Bool
  deriving DecidableEq

/-- A Go `context.Context`: `Err` is non-nil once the context is cancelled. -/
structure Context where
  Err : Option GoError
  deriving DecidableEq

/-- A `plumbing.ReferenceName`, such as `refs/heads/main`. -/
abbrev ReferenceName := String

/-- The struct `http.BasicAuth`. -/
structure BasicAuth where
  Username : String
  Password : String
  deriving DecidableEq

/-- The struct `git.CloneOptions`, with the fields `RunScan` sets. -/
structure CloneOptions where
  URL : String
  Depth : Nat
  Auth : Option BasicAuth
  SingleBranch : Bool
  Mirror : Bool
  NoCheckout : Bool
  deriving DecidableEq

/-- The struct `git.CheckoutOptions`, with the fields `RunScan` sets. -/
structure CheckoutOptions where
  Branch : ReferenceName
  Force : Bool
  SparseCheckoutDirectories : List String
  deriving DecidableEq

/-- An open `billy.File`: the result of `Stat` (the size) and, for a buffer of a given
length, the result of `Read` (the contents of the buffer afterwards). -/
structure File where
  Stat : Except GoError Nat
  Read : Nat → Except GoError Bytes

/-- A directory entry returned by `ReadDir`. -/
structure FileInfo where
  Name : String
  IsDir : Bool
  deriving DecidableEq

/-- The worktree file system as it stands after a checkout. -/
structure Filesystem where
  ReadDir : String → Except GoError (List FileInfo)
  Open : String → Except GoError File

/-- A `git.Worktree`: a successful checkout gives the file system it leaves behind. -/
structure Worktree where
  Checkout : CheckoutOptions → Except GoError Filesystem

/-- A branch iterator: `ForEach` passes `refs` to its callback in order and then returns
`err` (the callback of `RunScan` never fails, so an error can only come from the iterator). -/
structure ReferenceIter where
  refs : List ReferenceName
  err : Option GoError

/-- A cloned `git.Repository`. -/
structure Repository where
  Worktree : Except GoError Worktree
  Branches : Except GoError ReferenceIter
  Head : Except GoError ReferenceName

/-- The value `gjson.Get` returns. -/
structure Result where
  Exists : Bool
  Raw : String
  deriving DecidableEq

/-- The collaborators of `RunScan`. -/
structure World where
  Clone : CloneOptions → Except GoError Repository
  Short : ReferenceName → String
  YAMLToJSON : Bytes → Except GoError String
  Get : String → String → Result

/-- What `RunScan` has written so far, and its local variable `scanned_hashes`. -/
structure State where
  stdout : List String
  stderr : List String
  scanned_hashes : List String
  deriving DecidableEq

/-- The outcome of a run: the final state and the returned pair `(string, error)`. -/
structure Outcome where
  state : State
  message : String
  err : Option GoError
  deriving DecidableEq

/-! ## The functions of `logic.go` -/

/-- The 32-bit FNV-1a sum of `hash/fnv`: start from the offset basis, and for every byte
xor it in and multiply by the prime, modulo `2^32`. -/
def fnv32a (s : Bytes) : Nat :=
  s.foldl (fun h c => ((h ^^^ c.val) * 16777619) % 2 ^ 32) 2166136261

/-- The verb `%x` on an unsigned integer: lower-case hexadecimal without padding. -/
def sprintfHex (n : Nat) : String :=
  String.mk (Nat.toDigits 16 n)

/-- Source function `hash` (logic.go, lines 38-42). -/
def hash (s : Bytes) : String :=
  sprintfHex (fnv32a s)

/-- Source function `print_err` (logic.go, lines 44-48). -/
def print_err (str : String) (err : GoError) (quiet : Bool) (st : State) : State :=
  if !quiet then
    { st with stderr := st.stderr ++ ["  " ++ str ++ ": " ++ err.text ++ "\n"] }
  else st

/-- Go `strings.HasSuffix`. -/
def HasSuffix (s suffix : String) : Bool :=
  suffix.data.isSuffixOf s.data

/-- Go `strings.Contains` on character lists: some tail of `s` starts with `substr`. -/
def containsChars : List Char → List Char → Bool
  | [], substr => substr.isEmpty
  | c :: cs, substr => substr.isPrefixOf (c :: cs) || containsChars cs substr

/-- Go `strings.Contains`. -/
def Contains (s substr : String) : Bool :=
  containsChars s.data substr.data

/-- The constant `wf_path` (logic.go, line 137). -/
def wf_path : String := ".github/workflows"

/-- The string `file_url` (logic.go, line 157). -/
def file_url (scan_input : ScanInput) (short name : String) : String :=
  scan_input.RepositoryURL ++ "/blob/" ++ short ++ "/" ++ wf_path ++ "/" ++ name

/-- The body of the file loop after a successful read (logic.go, lines 178-195). -/
def scanBuffer (w : World) (scan_input : ScanInput) (url : String) (buffer : Bytes)
    (st : State) : State :=
  let file_hash := hash buffer
  if !scan_input.Complete && st.scanned_hashes.contains file_hash then
    st
  else
    let st := { st with scanned_hashes := st.scanned_hashes ++ [file_hash] }
    match w.YAMLToJSON buffer with
    | .error err => print_err ("Malformed YAML for file " ++ url) err scan_input.Quiet st
    | .ok jsonData =>
      let on_ := w.Get jsonData "on"
      if on_.Exists && Contains on_.Raw "pull_request_target" then
        { st with stdout := st.stdout ++ [url] }
      else st

/-- The body of the file loop (logic.go, lines 148-196). -/
def scanFile (w : World) (scan_input : ScanInput) (short : String) (fs : Filesystem)
    (st : State) (wf : FileInfo) : State :=
  if wf.IsDir then st
  else if !HasSuffix wf.Name ".yml" && !HasSuffix wf.Name ".yaml" then st
  else
    let url := file_url scan_input short wf.Name
    match fs.Open (wf_path ++ "/" ++ wf.Name) with
    | .error err => print_err ("Error reading workflow file " ++ url) err scan_input.Quiet st
    | .ok wf_file =>
      match wf_file.Stat with
      | .error err =>
        print_err ("Error getting file stats for " ++ url) err scan_input.Quiet st
      | .ok size =>
        match wf_file.Read size with
        | .error err =>
          print_err ("Error reading workflow file " ++ url) err scan_input.Quiet st
        | .ok buffer => scanBuffer w scan_input url buffer st

/-- The options of the checkout of one branch (logic.go, lines 122-126). -/
def checkoutOptions (branch : ReferenceName) : CheckoutOptions :=
  { Branch := branch, Force := true, SparseCheckoutDirectories := [".github/workflows"] }

/-- The branch loop (logic.go, lines 117-199): the state at the end, and the error when
the loop returns early. -/
def scanBranches (w : World) (scan_input : ScanInput) (worktree : Worktree) :
    State → List ReferenceName → State × Option GoError
  | st, [] => (st, none)
  | st, branch :: rest =>
    let st :=
      if !scan_input.Quiet then
        { st with stderr := st.stderr ++
            ["Scanning " ++ scan_input.RepositoryURL ++ "/tree/" ++ w.Short branch ++ "\n"] }
      else st
    match worktree.Checkout (checkoutOptions branch) with
    | .error err =>
      if err = GoError.ErrSparseResetDirectoryNotFound then
        scanBranches w scan_input worktree st rest
      else
        scanBranches w scan_input worktree
          (print_err ("Error checking out branch " ++ w.Short branch) err scan_input.Quiet st)
          rest
    | .ok fs =>
      match fs.ReadDir wf_path with
      | .error err =>
        if IsNotExist err then
          scanBranches w scan_input worktree st rest
        else
          (print_err ("Error reading workflow directory " ++ wf_path) err scan_input.Quiet st,
            some err)
      | .ok wf_dir =>
        scanBranches w scan_input worktree
          (wf_dir.foldl (scanFile w scan_input (w.Short branch) fs) st) rest

/-- The list `branches` (logic.go, lines 97-108): it starts as the HEAD reference, and the
callback appends every enumerated reference whose short name is not the default one. -/
def branchList (Short : ReferenceName → String) (head : ReferenceName)
    (refs : List ReferenceName) : List ReferenceName :=
  let default_branch := Short head
  refs.foldl
    (fun branches branch =>
      if Short branch != default_branch then branches ++ [branch] else branches)
    [head]

/-- The value `tokenAuth` (logic.go, lines 51-59). -/
def tokenAuth (scan_input : ScanInput) : Option BasicAuth :=
  if scan_input.Token != "" then
    some { Username := "PRTscan", Password := scan_input.Token }
  else none

/-- The options of the clone (logic.go, lines 65-72). -/
def cloneOptions (scan_input : ScanInput) : CloneOptions :=
  { URL := scan_input.RepositoryURL, Depth := 1, Auth := tokenAuth scan_input,
    SingleBranch := false, Mirror := true, NoCheckout := true }

/-- The state before the clone (logic.go, lines 61-63). -/
def startState (scan_input : ScanInput) : State :=
  if !scan_input.Quiet then
    { stdout := [], stderr := ["Started analyzing " ++ scan_input.RepositoryURL ++ "\n"],
      scanned_hashes := [] }
  else { stdout := [], stderr := [], scanned_hashes := [] }

/-- An early return `return "", err` after `print_err`. -/
def fail (str : String) (err : GoError) (scan_input : ScanInput) (st : State) : Outcome :=
  { state := print_err str err scan_input.Quiet st, message := "", err := some err }

/-- Source function `RunScan` (logic.go, lines 50-200).  The parameter `ctx` is not used
in the body of the source function. -/
def RunScan (_ctx : Context) (w : World) (scan_input : ScanInput) : Outcome :=
  let st := startState scan_input
  match w.Clone (cloneOptions scan_input) with
  | .error err => fail "Error cloning repository" err scan_input st
  | .ok repository =>
    match repository.Worktree with
    | .error err => fail "Error getting repository worktree" err scan_input st
    | .ok worktree =>
      match repository.Branches with
      | .error err => fail "Error getting the repository branches" err scan_input st
      | .ok branches_iterator =>
        match repository.Head with
        | .error err => fail "Error getting the repository HEAD" err scan_input st
        | .ok head =>
          let branches := branchList w.Short head branches_iterator.refs
          match branches_iterator.err with
          | some err => fail "Error listing repository branches" err scan_input st
          | none =>
            match scanBranches w scan_input worktree st branches with
            | (st, some err) => { state := st, message := "", err := some err }
            | (st, none) =>
              { state := st, message := "Scan completed successfully", err := none }

/-! ## Specification-side definitions -/

/-- A workflow file the scan has read: its display URL and its bytes. -/
structure ReadFile where
  url : String
  bytes : Bytes
  deriving DecidableEq

/-- The file a directory entry stands for: a non-directory entry whose name ends in `.yml`
or `.yaml` and which is opened, measured and read without error. -/
def readEntry (scan_input : ScanInput) (short : String) (fs : Filesystem) (wf : FileInfo) :
    Option ReadFile :=
  if wf.IsDir then none
  else if HasSuffix wf.Name ".yml" || HasSuffix wf.Name ".yaml" then
    match fs.Open (wf_path ++ "/" ++ wf.Name) with
    | .error _ => none
    | .ok wf_file =>
      match wf_file.Stat with
      | .error _ => none
      | .ok size =>
        match wf_file.Read size with
        | .error _ => none
        | .ok buffer => some { url := file_url scan_input short wf.Name, bytes := buffer }
  else none

/-- The files read on one branch, in listing order; none when the checkout or the listing
fails. -/
def branchFiles (w : World) (scan_input : ScanInput) (worktree : Worktree)
    (branch : ReferenceName) : List ReadFile :=
  match worktree.Checkout (checkoutOptions branch) with
  | .error _ => []
  | .ok fs =>
    match fs.ReadDir wf_path with
    | .error _ => []
    | .ok wf_dir => wf_dir.filterMap (readEntry scan_input (w.Short branch) fs)

/-- The display URLs of all entries of the workflow directory of one branch, in listing
order; none when the checkout or the listing fails. -/
def branchURLs (w : World) (scan_input : ScanInput) (worktree : Worktree)
    (branch : ReferenceName) : List String :=
  match worktree.Checkout (checkoutOptions branch) with
  | .error _ => []
  | .ok fs =>
    match fs.ReadDir wf_path with
    | .error _ => []
    | .ok wf_dir => wf_dir.map (fun wf => file_url scan_input (w.Short branch) wf.Name)

/-- The fatal error of a branch: its checkout succeeds and the listing of its workflow
directory fails with an error other than not-exist. -/
def listingError (worktree : Worktree) (branch : ReferenceName) : Option GoError :=
  match worktree.Checkout (checkoutOptions branch) with
  | .error _ => none
  | .ok fs =>
    match fs.ReadDir wf_path with
    | .error err => if IsNotExist err then none else some err
    | .ok _ => none

/-- The first fatal listing error over a list of branches. -/
def firstListingError (worktree : Worktree) : List ReferenceName → Option GoError
  | [] => none
  | branch :: rest =>
    match listingError worktree branch with
    | some err => some err
    | none => firstListingError worktree rest

/-- The branches the loop goes through before the first fatal listing error. -/
def reachedBranches (worktree : Worktree) (branches : List ReferenceName) :
    List ReferenceName :=
  branches.takeWhile (fun branch => (listingError worktree branch).isNone)

/-- The set-up of a scan (logic.go, lines 65-113): the worktree and the branch list, or
the error of the first collaborator call that fails. -/
def setup (w : World) (scan_input : ScanInput) :
    Except GoError (Worktree × List ReferenceName) :=
  match w.Clone (cloneOptions scan_input) with
  | .error err => .error err
  | .ok repository =>
    match repository.Worktree with
    | .error err => .error err
    | .ok worktree =>
      match repository.Branches with
      | .error err => .error err
      | .ok branches_iterator =>
        match repository.Head with
        | .error err => .error err
        | .ok head =>
          match branches_iterator.err with
          | some err => .error err
          | none => .ok (worktree, branchList w.Short head branches_iterator.refs)

/-- The trigger condition: the document converts to JSON, its top-level `on` field exists
and the raw text of the field has `pull_request_target` as a substring. -/
def matchesTrigger (w : World) (bytes : Bytes) : Bool :=
  match w.YAMLToJSON bytes with
  | .error _ => false
  | .ok jsonData =>
    (w.Get jsonData "on").Exists &&
      decide ("pull_request_target".data <:+: (w.Get jsonData "on").Raw.data)

/-- One file of the loop on the observable pair (printed findings, scanned hashes). -/
def stepObs (w : World) (complete : Bool) (o : List String × List String) (f : ReadFile) :
    List String × List String :=
  if !complete && o.2.contains (hash f.bytes) then o
  else if matchesTrigger w f.bytes then (o.1 ++ [f.url], o.2 ++ [hash f.bytes])
  else (o.1, o.2 ++ [hash f.bytes])

/-- The observable pair of a state. -/
def obs (st : State) : List String × List String :=
  (st.stdout, st.scanned_hashes)

/-- The files read by the branch loop, in order: those of the branches before the first
fatal listing error. -/
def filesOf (w : World) (scan_input : ScanInput) (worktree : Worktree)
    (branches : List ReferenceName) : List ReadFile :=
  (reachedBranches worktree branches).flatMap (branchFiles w scan_input worktree)

/-- The files read by a scan, in discovery order. -/
def filesRead (w : World) (scan_input : ScanInput) : List ReadFile :=
  match setup w scan_input with
  | .error _ => []
  | .ok (worktree, branches) => filesOf w scan_input worktree branches

/-- The files of all branches of the branch list, in branch order and listing order. -/
def allFiles (w : World) (scan_input : ScanInput) : List ReadFile :=
  match setup w scan_input with
  | .error _ => []
  | .ok (worktree, branches) => branches.flatMap (branchFiles w scan_input worktree)

/-- The files a scan without `Complete` reports, given the hashes seen so far: a file is
passed over when its hash was seen, and reported when it matches the trigger. -/
def reported (w : World) : List String → List ReadFile → List ReadFile
  | _, [] => []
  | seen, f :: rest =>
    if seen.contains (hash f.bytes) then reported w seen rest
    else if matchesTrigger w f.bytes then f :: reported w (seen ++ [hash f.bytes]) rest
    else reported w (seen ++ [hash f.bytes]) rest

/-- The display URLs of the entries of the first branch of the branch list. -/
def defaultBranchURLs (w : World) (scan_input : ScanInput) : List String :=
  match setup w scan_input with
  | .ok (worktree, branch :: _) => branchURLs w scan_input worktree branch
  | _ => []

/-- The display URLs of the entries of the branches after the first, in branch order. -/
def otherBranchURLs (w : World) (scan_input : ScanInput) : List String :=
  match setup w scan_input with
  | .ok (worktree, _ :: rest) => rest.flatMap (branchURLs w scan_input worktree)
  | _ => []

/-- The display URLs of all entries of all branches, in branch order and listing order. -/
def listedURLs (w : World) (scan_input : ScanInput) : List String :=
  match setup w scan_input with
  | .ok (worktree, branches) => branches.flatMap (branchURLs w scan_input worktree)
  | .error _ => []

/-- The clone fails with `e`. -/
def CloneFailed (w : World) (scan_input : ScanInput) (e : GoError) : Prop :=
  w.Clone (cloneOptions scan_input) = .error e

/-- The worktree lookup of the cloned repository fails with `e`. -/
def WorktreeFailed (w : World) (scan_input : ScanInput) (e : GoError) : Prop :=
  ∃ repository, w.Clone (cloneOptions scan_input) = .ok repository ∧
    repository.Worktree = .error e

/-- Resolving HEAD of the cloned repository fails with `e`. -/
def HeadFailed (w : World) (scan_input : ScanInput) (e : GoError) : Prop :=
  ∃ repository, w.Clone (cloneOptions scan_input) = .ok repository ∧
    repository.Head = .error e

/-- Enumerating the branches of the cloned repository fails with `e`: getting the
iterator fails, or the iteration does. -/
def EnumerationFailed (w : World) (scan_input : ScanInput) (e : GoError) : Prop :=
  ∃ repository, w.Clone (cloneOptions scan_input) = .ok repository ∧
    (repository.Branches = .error e ∨
      ∃ it, repository.Branches = .ok it ∧ it.err = some e)

/-- The listing of the workflow directory of some branch of the branch list, after a
successful checkout, fails with `e`, which is not a not-exist error. -/
def ListingFailed (w : World) (scan_input : ScanInput) (e : GoError) : Prop :=
  ∃ repository worktree it head,
    w.Clone (cloneOptions scan_input) = .ok repository ∧
    repository.Worktree = .ok worktree ∧
    repository.Branches = .ok it ∧
    repository.Head = .ok head ∧
    ∃ branch ∈ branchList w.Short head it.refs, ∃ fs,
      worktree.Checkout (checkoutOptions branch) = .ok fs ∧
      fs.ReadDir wf_path = .error e ∧ IsNotExist e = false

/-! ## Example worlds -/

/-- ASCII text as bytes. -/
def asciiBytes (s : String) : Bytes :=
  s.data.map (fun c => Fin.ofNat c.toNat)

/-- An in-memory file holding `content`. -/
def memFile (content : Bytes) : File :=
  { Stat := .ok content.length, Read := fun n => .ok (content.take n) }

/-- A regular file of the workflow directory with the given text. -/
def regular (name content : String) : FileInfo × Except GoError File :=
  ({ Name := name, IsDir := false }, .ok (memFile (asciiBytes content)))

/-- An in-memory file system: the entries of the workflow directory, each with the result
of opening it. -/
def memFS (entries : List (FileInfo × Except GoError File)) : Filesystem :=
  { ReadDir := fun p =>
      if p = wf_path then .ok (entries.map (fun en => en.1))
      else .error (.notExist "file does not exist")
    Open := fun p =>
      match entries.find? (fun en => wf_path ++ "/" ++ en.1.Name == p) with
      | some en => en.2
      | none => .error (.notExist "file does not exist") }

/-- The short name of a reference under `refs/heads/`. -/
def shortName (r : ReferenceName) : String :=
  if "refs/heads/".data.isPrefixOf r.data then String.mk (r.data.drop 11) else r

/-- A worktree from a table of branches: the result of the checkout of each. -/
def memWorktree (branches : List (ReferenceName × Except GoError Filesystem)) : Worktree :=
  { Checkout := fun o =>
      match branches.find? (fun b => b.1 == o.Branch) with
      | some b => b.2
      | none => .error (.other "reference not found") }

/-- A repository from its HEAD and a table of branches, enumerated in table order. -/
def memRepository (head : ReferenceName)
    (branches : List (ReferenceName × Except GoError Filesystem)) : Repository :=
  { Worktree := .ok (memWorktree branches)
    Branches := .ok { refs := branches.map (fun b => b.1), err := none }
    Head := .ok head }

/-- The documents of the examples: the YAML text, its JSON form and its `on` field. -/
def exampleDocs : List (Bytes × String × Result) :=
  [(asciiBytes "on: pull_request_target\n", "\x7b\"on\": \"pull_request_target\"\x7d\n",
      { Exists := true, Raw := "\"pull_request_target\"" }),
   (asciiBytes "on: push\n", "\x7b\"on\": \"push\"\x7d\n",
      { Exists := true, Raw := "\"push\"" }),
   (asciiBytes "name: ci\n", "\x7b\"name\": \"ci\"\x7d\n",
      { Exists := false, Raw := "" }),
   (asciiBytes "costarring: 1\non: pull_request_target\n",
      "\x7b\"costarring\": 1, \"on\": \"pull_request_target\"\x7d\n",
      { Exists := true, Raw := "\"pull_request_target\"" }),
   (asciiBytes "liquid: 1\non: pull_request_target\n",
      "\x7b\"liquid\": 1, \"on\": \"pull_request_target\"\x7d\n",
      { Exists := true, Raw := "\"pull_request_target\"" })]

/-- A world around a clone result: the documents of `exampleDocs` convert, everything else
is malformed YAML. -/
def exampleWorld (clone : Except GoError Repository) : World :=
  { Clone := fun _ => clone
    Short := shortName
    YAMLToJSON := fun b =>
      match exampleDocs.find? (fun d => d.1 == b) with
      | some d => .ok d.2.1
      | none => .error (.other "yaml: malformed document")
    Get := fun json path =>
      match exampleDocs.find? (fun d => d.2.1 == json && path == "on") with
      | some d => d.2.2
      | none => { Exists := false, Raw := "" } }

/-- The input of the examples. -/
def exampleInput (complete quiet : Bool) : ScanInput :=
  { RepositoryURL := "https://github.com/o/r", Token := "", Complete := complete,
    Quiet := quiet }

/-- Branches `main` (default) and `feature` holding a byte-identical matching `ci.yml`. -/
def twinBranches : List (ReferenceName × Except GoError Filesystem) :=
  [("refs/heads/feature", .ok (memFS [regular "ci.yml" "on: pull_request_target\n"])),
   ("refs/heads/main", .ok (memFS [regular "ci.yml" "on: pull_request_target\n"]))]

/-- The world of two branches with the same matching workflow. -/
def twinWorld : World :=
  exampleWorld (.ok (memRepository "refs/heads/main" twinBranches))

/-- One branch whose two workflows differ in their bytes and agree in their FNV-1a sum. -/
def collisionBranches : List (ReferenceName × Except GoError Filesystem) :=
  [("refs/heads/main", .ok (memFS
    [regular "a.yml" "costarring: 1\non: pull_request_target\n",
     regular "b.yml" "liquid: 1\non: pull_request_target\n"]))]

/-- The world of the hash collision. -/
def collisionWorld : World :=
  exampleWorld (.ok (memRepository "refs/heads/main" collisionBranches))

/-- The entries of the branch `main` of `roughWorld`: a matching workflow, a workflow on
`push`, malformed YAML, files that fail to open, to stat and to read, a README and a
directory. -/
def roughEntries : List (FileInfo × Except GoError File) :=
  [regular "push.yml" "on: push\n",
   regular "broken.yml" ": :\n",
   regular "ci.yml" "on: pull_request_target\n",
   ({ Name := "locked.yml", IsDir := false }, .error (.other "permission denied")),
   ({ Name := "nostat.yml", IsDir := false },
     .ok { Stat := .error (.other "stat failed"), Read := fun _ => .ok [] }),
   ({ Name := "short.yaml", IsDir := false },
     .ok { Stat := .ok 0, Read := fun _ => .error (.other "EOF") }),
   regular "README.md" "on: pull_request_target\n",
   ({ Name := "old.yml", IsDir := true }, .error (.other "is a directory"))]

/-- Branches whose checkout fails in both ways, a branch without workflow directory and a
branch with all kinds of files. -/
def roughBranches : List (ReferenceName × Except GoError Filesystem) :=
  [("refs/heads/bad", .error (.other "object not found")),
   ("refs/heads/empty", .ok
     { ReadDir := fun _ => .error (.notExist "file does not exist")
       Open := fun _ => .error (.notExist "file does not exist") }),
   ("refs/heads/gone", .error .ErrSparseResetDirectoryNotFound),
   ("refs/heads/main", .ok (memFS roughEntries))]

/-- The repository of `roughWorld`. -/
def roughRepository : Repository :=
  memRepository "refs/heads/main" roughBranches

/-- The world of the recoverable failures. -/
def roughWorld : World :=
  exampleWorld (.ok roughRepository)

/-- A repository whose worktree lookup fails, everything else being in order. -/
def bareRepository : Repository :=
  { Worktree := .error (.other "worktree not available in a bare repository")
    Branches := .ok { refs := ["refs/heads/main"], err := none }
    Head := .ok "refs/heads/main" }

/-- The world of the failing worktree lookup. -/
def bareWorld : World :=
  exampleWorld (.ok bareRepository)

/-- A cancelled context. -/
def cancelledContext : Context :=
  { Err := some (.other "context canceled") }

/-- A live context. -/
def background : Context :=
  { Err := none }

/-- A branch whose workflow directory cannot be listed. -/
def fatalBranches : List (ReferenceName × Except GoError Filesystem) :=
  [("refs/heads/main", .ok
    { ReadDir := fun _ => .error (.other "input/output error")
      Open := fun _ => .error (.other "input/output error") })]

/-- The repository of `fatalWorld`. -/
def fatalRepository : Repository :=
  memRepository "refs/heads/main" fatalBranches

/-- The world of the fatal listing error. -/
def fatalWorld : World :=
  exampleWorld (.ok fatalRepository)

/-- The state before anything is written. -/
def emptyState : State :=
  { stdout := [], stderr := [], scanned_hashes := [] }

/-- The file `ci.yml` of the branch `main` of the examples. -/
def ciFile : ReadFile :=
  { url := "https://github.com/o/r/blob/main/.github/workflows/ci.yml",
    bytes := asciiBytes "on: pull_request_target\n" }

/-- The file `ci.yml` of the branch `feature` of `twinWorld`. -/
def ciFeatureFile : ReadFile :=
  { url := "https://github.com/o/r/blob/feature/.github/workflows/ci.yml",
    bytes := asciiBytes "on: pull_request_target\n" }

/-- The file `push.yml` of `roughWorld`. -/
def pushFile : ReadFile :=
  { url := "https://github.com/o/r/blob/main/.github/workflows/push.yml",
    bytes := asciiBytes "on: push\n" }

/-- The file `broken.yml` of `roughWorld`. -/
def brokenFile : ReadFile :=
  { url := "https://github.com/o/r/blob/main/.github/workflows/broken.yml",
    bytes := asciiBytes ": :\n" }

/-- The file `a.yml` of `collisionWorld`. -/
def costarringFile : ReadFile :=
  { url := "https://github.com/o/r/blob/main/.github/workflows/a.yml",
    bytes := asciiBytes "costarring: 1\non: pull_request_target\n" }

/-- The file `b.yml` of `collisionWorld`. -/
def liquidFile : ReadFile :=
  { url := "https://github.com/o/r/blob/main/.github/workflows/b.yml",
    bytes := asciiBytes "liquid: 1\non: pull_request_target\n" }

/-! ## Lemmas -/

theorem containsChars_iff (s substr : List Char) :
    containsChars s substr = true ↔ substr <:+: s := by
  induction s with
  | nil => simp [containsChars]
  | cons c cs ih =>
    simp only [containsChars, Bool.or_eq_true, ih, List.infix_cons_iff, List.isPrefixOf_iff_prefix]

theorem Contains_iff (s substr : String) :
    Contains s substr = true ↔ ∃ pre post, s.data = pre ++ substr.data ++ post := by
  unfold Contains
  rw [containsChars_iff]
  constructor
  · rintro ⟨pre, post, h⟩
    exact ⟨pre, post, h.symm⟩
  · rintro ⟨pre, post, h⟩
    exact ⟨pre, post, h.symm⟩

theorem HasSuffix_iff (s suffix : String) :
    HasSuffix s suffix = true ↔ ∃ pre : List Char, s.data = pre ++ suffix.data := by
  unfold HasSuffix
  rw [List.isSuffixOf_iff_suffix]
  constructor
  · rintro ⟨pre, h⟩
    exact ⟨pre, h.symm⟩
  · rintro ⟨pre, h⟩
    exact ⟨pre, h.symm⟩

theorem obs_print_err (str : String) (err : GoError) (quiet : Bool) (st : State) :
    obs (print_err str err quiet st) = obs st := by
  unfold print_err obs
  split <;> rfl

theorem obs_scanBuffer (w : World) (scan_input : ScanInput) (f : ReadFile) (st : State) :
    obs (scanBuffer w scan_input f.url f.bytes st) =
      stepObs w scan_input.Complete (obs st) f := by
  unfold scanBuffer stepObs matchesTrigger
  by_cases hskip : (!scan_input.Complete && st.scanned_hashes.contains (hash f.bytes)) = true
  · simp only [obs, hskip, if_true]
  · simp only [obs, hskip, if_false]
    cases hy : w.YAMLToJSON f.bytes with
    | error err =>
      have h := obs_print_err ("Malformed YAML for file " ++ f.url) err scan_input.Quiet
        { st with scanned_hashes := st.scanned_hashes ++ [hash f.bytes] }
      simp only [obs] at h
      simp [h]
    | ok jsonData =>
      simp only
      by_cases hex : (w.Get jsonData "on").Exists = true
      · by_cases hc : Contains (w.Get jsonData "on").Raw "pull_request_target" = true
        · have hc2 := (containsChars_iff _ _).mp hc
          simp [hex, hc, hc2]
        · have hc2 : ¬ ("pull_request_target".data <:+: (w.Get jsonData "on").Raw.data) :=
            fun h => hc ((containsChars_iff _ _).mpr h)
          simp [hex, hc, hc2]
      · simp [hex]

theorem obs_scanFile (w : World) (scan_input : ScanInput) (short : String) (fs : Filesystem)
    (st : State) (wf : FileInfo) :
    obs (scanFile w scan_input short fs st wf) =
      match readEntry scan_input short fs wf with
      | none => obs st
      | some f => stepObs w scan_input.Complete (obs st) f := by
  unfold scanFile readEntry
  by_cases hd : wf.IsDir = true
  · simp [hd]
  · by_cases hs : (HasSuffix wf.Name ".yml" || HasSuffix wf.Name ".yaml") = true
    · have hs2 : (!HasSuffix wf.Name ".yml" && !HasSuffix wf.Name ".yaml") = false := by
        cases h1 : HasSuffix wf.Name ".yml" <;> cases h2 : HasSuffix wf.Name ".yaml" <;>
          simp_all
      simp only [hd, hs, hs2, if_true, if_false, Bool.false_eq_true]
      cases fs.Open (wf_path ++ "/" ++ wf.Name) with
      | error err => simp [obs_print_err]
      | ok wf_file =>
        simp only
        cases wf_file.Stat with
        | error err => simp [obs_print_err]
        | ok size =>
          simp only
          cases wf_file.Read size with
          | error err => simp [obs_print_err]
          | ok buffer =>
            simp only
            exact obs_scanBuffer w scan_input
              { url := file_url scan_input short wf.Name, bytes := buffer } st
    · have hs2 : (!HasSuffix wf.Name ".yml" && !HasSuffix wf.Name ".yaml") = true := by
        cases h1 : HasSuffix wf.Name ".yml" <;> cases h2 : HasSuffix wf.Name ".yaml" <;>
          simp_all
      simp [hd, hs, hs2]

theorem obs_foldl_scanFile (w : World) (scan_input : ScanInput) (short : String)
    (fs : Filesystem) (wf_dir : List FileInfo) (st : State) :
    obs (wf_dir.foldl (scanFile w scan_input short fs) st) =
      (wf_dir.filterMap (readEntry scan_input short fs)).foldl
        (stepObs w scan_input.Complete) (obs st) := by
  induction wf_dir generalizing st with
  | nil => rfl
  | cons wf rest ih =>
    rw [List.foldl_cons, ih, obs_scanFile, List.filterMap_cons]
    cases readEntry scan_input short fs wf with
    | none => rfl
    | some f => rfl

theorem filesOf_nil (w : World) (scan_input : ScanInput) (worktree : Worktree) :
    filesOf w scan_input worktree [] = [] := rfl

theorem filesOf_cons (w : World) (scan_input : ScanInput) (worktree : Worktree)
    (branch : ReferenceName) (rest : List ReferenceName) :
    filesOf w scan_input worktree (branch :: rest) =
      match listingError worktree branch with
      | some _ => []
      | none => branchFiles w scan_input worktree branch ++ filesOf w scan_input worktree rest := by
  unfold filesOf reachedBranches
  rw [List.takeWhile_cons]
  cases listingError worktree branch with
  | none => simp
  | some err => simp

theorem obs_scanBranches (w : World) (scan_input : ScanInput) (worktree : Worktree)
    (branches : List ReferenceName) (st : State) :
    obs (scanBranches w scan_input worktree st branches).1 =
      (filesOf w scan_input worktree branches).foldl (stepObs w scan_input.Complete) (obs st) := by
  induction branches generalizing st with
  | nil => rfl
  | cons branch rest ih =>
    rw [filesOf_cons]
    unfold scanBranches listingError branchFiles
    have hst : ∀ st0 : State, obs
        (if (!scan_input.Quiet) = true then
          { st0 with stderr := st0.stderr ++
            ["Scanning " ++ scan_input.RepositoryURL ++ "/tree/" ++ w.Short branch ++ "\n"] }
        else st0) = obs st0 := by
      intro st0
      split <;> rfl
    cases worktree.Checkout (checkoutOptions branch) with
    | error err =>
      simp only
      split
      · rw [ih, hst]; simp
      · rw [ih, obs_print_err, hst]; simp
    | ok fs =>
      simp only
      cases fs.ReadDir wf_path with
      | error err =>
        simp only
        cases hne : IsNotExist err with
        | true => simp only [if_true]; rw [ih, hst]; simp
        | false =>
          simp only [Bool.false_eq_true, if_false]
          rw [obs_print_err, hst]
          rfl
      | ok wf_dir =>
        simp only
        rw [ih, obs_foldl_scanFile, hst, List.foldl_append]

theorem err_scanBranches (w : World) (scan_input : ScanInput) (worktree : Worktree)
    (branches : List ReferenceName) (st : State) :
    (scanBranches w scan_input worktree st branches).2 = firstListingError worktree branches := by
  induction branches generalizing st with
  | nil => rfl
  | cons branch rest ih =>
    unfold scanBranches firstListingError listingError
    cases worktree.Checkout (checkoutOptions branch) with
    | error err =>
      simp only
      split
      · rw [ih]
      · rw [ih]
    | ok fs =>
      simp only
      cases fs.ReadDir wf_path with
      | error err =>
        simp only
        cases hne : IsNotExist err with
        | true => simp only [if_true]; rw [ih]
        | false => simp
      | ok wf_dir =>
        simp only
        rw [ih]

theorem obs_startState (scan_input : ScanInput) : obs (startState scan_input) = ([], []) := by
  unfold startState obs
  split <;> rfl

theorem RunScan_setup_error (ctx : Context) (w : World) (scan_input : ScanInput) (e : GoError)
    (h : setup w scan_input = .error e) :
    ∃ str, RunScan ctx w scan_input = fail str e scan_input (startState scan_input) := by
  unfold setup at h
  unfold RunScan
  cases hc : w.Clone (cloneOptions scan_input) with
  | error err => rw [hc] at h; cases h; exact ⟨_, rfl⟩
  | ok repository =>
    rw [hc] at h
    simp only at h ⊢
    cases hw : repository.Worktree with
    | error err => rw [hw] at h; cases h; exact ⟨_, rfl⟩
    | ok worktree =>
      rw [hw] at h
      simp only at h ⊢
      cases hb : repository.Branches with
      | error err => rw [hb] at h; cases h; exact ⟨_, rfl⟩
      | ok branches_iterator =>
        rw [hb] at h
        simp only at h ⊢
        cases hh : repository.Head with
        | error err => rw [hh] at h; cases h; exact ⟨_, rfl⟩
        | ok head =>
          rw [hh] at h
          simp only at h ⊢
          cases hi : branches_iterator.err with
          | some err => rw [hi] at h; cases h; exact ⟨_, rfl⟩
          | none => rw [hi] at h; cases h

theorem RunScan_setup_ok (ctx : Context) (w : World) (scan_input : ScanInput)
    (worktree : Worktree) (branches : List ReferenceName)
    (h : setup w scan_input = .ok (worktree, branches)) :
    RunScan ctx w scan_input =
      { state := (scanBranches w scan_input worktree (startState scan_input) branches).1
        message :=
          match (scanBranches w scan_input worktree (startState scan_input) branches).2 with
          | some _ => ""
          | none => "Scan completed successfully"
        err := (scanBranches w scan_input worktree (startState scan_input) branches).2 } := by
  unfold setup at h
  unfold RunScan
  cases hc : w.Clone (cloneOptions scan_input) with
  | error err => rw [hc] at h; cases h
  | ok repository =>
    rw [hc] at h
    simp only at h ⊢
    cases hw : repository.Worktree with
    | error err => rw [hw] at h; cases h
    | ok wt =>
      rw [hw] at h
      simp only at h ⊢
      cases hb : repository.Branches with
      | error err => rw [hb] at h; cases h
      | ok branches_iterator =>
        rw [hb] at h
        simp only at h ⊢
        cases hh : repository.Head with
        | error err => rw [hh] at h; cases h
        | ok head =>
          rw [hh] at h
          simp only at h ⊢
          cases hi : branches_iterator.err with
          | some err => rw [hi] at h; cases h
          | none =>
            rw [hi] at h
            simp only at h ⊢
            injection h with h
            injection h with h1 h2
            subst h1 h2
            generalize scanBranches w scan_input wt (startState scan_input)
              (branchList w.Short head branches_iterator.refs) = r
            obtain ⟨st, e⟩ := r
            cases e <;> rfl

theorem obs_fail (str : String) (e : GoError) (scan_input : ScanInput) (st : State) :
    obs (fail str e scan_input st).state = obs st := by
  unfold fail
  exact obs_print_err _ _ _ _

theorem obs_RunScan (ctx : Context) (w : World) (scan_input : ScanInput) :
    obs (RunScan ctx w scan_input).state =
      (filesRead w scan_input).foldl (stepObs w scan_input.Complete) ([], []) := by
  unfold filesRead
  cases h : setup w scan_input with
  | error e =>
    obtain ⟨str, hr⟩ := RunScan_setup_error ctx w scan_input e h
    rw [hr, obs_fail, obs_startState]
    rfl
  | ok p =>
    obtain ⟨worktree, branches⟩ := p
    rw [RunScan_setup_ok ctx w scan_input worktree branches h]
    simp only
    rw [obs_scanBranches, obs_startState]

theorem err_RunScan (ctx : Context) (w : World) (scan_input : ScanInput) :
    (RunScan ctx w scan_input).err =
      match setup w scan_input with
      | .error e => some e
      | .ok (worktree, branches) => firstListingError worktree branches := by
  cases h : setup w scan_input with
  | error e =>
    obtain ⟨str, hr⟩ := RunScan_setup_error ctx w scan_input e h
    rw [hr]
    rfl
  | ok p =>
    obtain ⟨worktree, branches⟩ := p
    rw [RunScan_setup_ok ctx w scan_input worktree branches h]
    simp only
    rw [err_scanBranches]

theorem message_RunScan (ctx : Context) (w : World) (scan_input : ScanInput) :
    (RunScan ctx w scan_input).message =
      match (RunScan ctx w scan_input).err with
      | some _ => ""
      | none => "Scan completed successfully" := by
  cases h : setup w scan_input with
  | error e =>
    obtain ⟨str, hr⟩ := RunScan_setup_error ctx w scan_input e h
    rw [hr]
    rfl
  | ok p =>
    obtain ⟨worktree, branches⟩ := p
    rw [RunScan_setup_ok ctx w scan_input worktree branches h]

theorem firstListingError_eq_none (worktree : Worktree) (branches : List ReferenceName) :
    firstListingError worktree branches = none ↔
      ∀ branch ∈ branches, listingError worktree branch = none := by
  induction branches with
  | nil => simp [firstListingError]
  | cons branch rest ih =>
    unfold firstListingError
    cases h : listingError worktree branch with
    | none => simp [ih, h]
    | some e => simp [h]

theorem reachedBranches_of_no_error (worktree : Worktree) (branches : List ReferenceName)
    (h : firstListingError worktree branches = none) :
    reachedBranches worktree branches = branches := by
  rw [firstListingError_eq_none] at h
  unfold reachedBranches
  rw [List.takeWhile_eq_self_iff]
  intro branch hb
  simp [h branch hb]

theorem filesRead_eq_allFiles (ctx : Context) (w : World) (scan_input : ScanInput)
    (h : (RunScan ctx w scan_input).err = none) :
    filesRead w scan_input = allFiles w scan_input := by
  rw [err_RunScan] at h
  unfold filesRead allFiles
  cases hs : setup w scan_input with
  | error e => rfl
  | ok p =>
    obtain ⟨worktree, branches⟩ := p
    rw [hs] at h
    simp only at h ⊢
    unfold filesOf
    rw [reachedBranches_of_no_error worktree branches h]

theorem foldl_stepObs_complete (w : World) (files : List ReadFile)
    (o : List String × List String) :
    files.foldl (stepObs w true) o =
      (o.1 ++ ((files.filter (fun f => matchesTrigger w f.bytes)).map (fun f => f.url)),
        o.2 ++ files.map (fun f => hash f.bytes)) := by
  induction files generalizing o with
  | nil => simp
  | cons f rest ih =>
    rw [List.foldl_cons, ih]
    unfold stepObs
    cases ht : matchesTrigger w f.bytes <;> simp [ht]

theorem reported_cons (w : World) (seen : List String) (f : ReadFile) (rest : List ReadFile) :
    reported w seen (f :: rest) =
      if seen.contains (hash f.bytes) then reported w seen rest
      else if matchesTrigger w f.bytes then f :: reported w (seen ++ [hash f.bytes]) rest
      else reported w (seen ++ [hash f.bytes]) rest := by
  rw [reported]

theorem foldl_stepObs_dedup (w : World) (files : List ReadFile)
    (o : List String × List String) :
    (files.foldl (stepObs w false) o).1 = o.1 ++ (reported w o.2 files).map (fun f => f.url) := by
  induction files generalizing o with
  | nil => simp [reported]
  | cons f rest ih =>
    rw [List.foldl_cons, ih, reported_cons]
    unfold stepObs
    by_cases hs : o.2.contains (hash f.bytes) = true
    · simp only [Bool.not_false, Bool.true_and, hs, if_true]
    · simp only [Bool.not_false, Bool.true_and, hs, if_false]
      cases ht : matchesTrigger w f.bytes <;> simp

theorem reported_sublist (w : World) (seen : List String) (files : List ReadFile) :
    (reported w seen files).Sublist files := by
  induction files generalizing seen with
  | nil => simp [reported]
  | cons f rest ih =>
    unfold reported
    split
    · exact (ih seen).cons f
    · split
      · exact (ih _).cons₂ f
      · exact (ih _).cons f

theorem reported_not_seen (w : World) (seen : List String) (files : List ReadFile)
    (f : ReadFile) (hf : f ∈ reported w seen files) : hash f.bytes ∉ seen := by
  induction files generalizing seen with
  | nil => simp [reported] at hf
  | cons g rest ih =>
    unfold reported at hf
    split at hf
    · exact ih seen hf
    · rename_i hs
      split at hf
      · rcases List.mem_cons.mp hf with h | h
        · subst h
          simpa using hs
        · intro hmem
          exact ih _ h (List.mem_append_left _ hmem)
      · intro hmem
        exact ih _ hf (List.mem_append_left _ hmem)

theorem reported_earliest (w : World) (seen : List String) (files : List ReadFile)
    (f : ReadFile) (hf : f ∈ reported w seen files) :
    ∃ pre post, files = pre ++ f :: post ∧ ∀ g ∈ pre, hash g.bytes ≠ hash f.bytes := by
  induction files generalizing seen with
  | nil => simp [reported] at hf
  | cons g rest ih =>
    have key : ∀ seen2, f ∈ reported w seen2 rest → hash g.bytes ∈ seen2 →
        ∃ pre post, g :: rest = pre ++ f :: post ∧ ∀ x ∈ pre, hash x.bytes ≠ hash f.bytes := by
      intro seen2 h2 hg
      obtain ⟨pre, post, hsplit, hpre⟩ := ih seen2 h2
      refine ⟨g :: pre, post, by rw [hsplit]; rfl, ?_⟩
      intro x hx
      rcases List.mem_cons.mp hx with h | h
      · subst h
        intro heq
        exact reported_not_seen w seen2 rest f h2 (heq ▸ hg)
      · exact hpre x h
    unfold reported at hf
    split at hf
    · rename_i hs
      exact key seen hf (by simpa using hs)
    · split at hf
      · rcases List.mem_cons.mp hf with h | h
        · subst h
          exact ⟨[], rest, rfl, by simp⟩
        · exact key _ h (by simp)
      · exact key _ hf (by simp)

theorem reported_count (w : World) (seen : List String) (files : List ReadFile) (b : Bytes) :
    (reported w seen files).countP (fun f => decide (f.bytes = b)) ≤ 1 := by
  induction files generalizing seen with
  | nil => simp [reported]
  | cons g rest ih =>
    unfold reported
    split
    · exact ih seen
    · split
      · by_cases hb : g.bytes = b
        · have hzero : (reported w (seen ++ [hash g.bytes]) rest).countP
              (fun f => decide (f.bytes = b)) = 0 := by
            rw [List.countP_eq_zero]
            intro f hf
            have hns := reported_not_seen w _ rest f hf
            intro hfb
            apply hns
            have : f.bytes = g.bytes := by rw [hb]; simpa using hfb
            rw [this]
            simp
          rw [List.countP_cons, hzero]
          simp [hb]
        · rw [List.countP_cons]
          have := ih (seen ++ [hash g.bytes])
          simp [hb]
          exact this
      · exact ih _

theorem mem_reported (w : World) (seen : List String) (pre : List ReadFile) (f : ReadFile)
    (post : List ReadFile) (hpre : ∀ g ∈ pre, hash g.bytes ≠ hash f.bytes)
    (hseen : hash f.bytes ∉ seen) (ht : matchesTrigger w f.bytes = true) :
    f ∈ reported w seen (pre ++ f :: post) := by
  induction pre generalizing seen with
  | nil =>
    simp [reported, hseen, ht]
  | cons g rest ih =>
    have hg : hash g.bytes ≠ hash f.bytes := hpre g (List.mem_cons_self _ _)
    have hrest : ∀ x ∈ rest, hash x.bytes ≠ hash f.bytes :=
      fun x hx => hpre x (List.mem_cons_of_mem _ hx)
    have hseen2 : hash f.bytes ∉ seen ++ [hash g.bytes] := by
      simp only [List.mem_append, List.mem_singleton, not_or]
      exact ⟨hseen, fun h => hg h.symm⟩
    rw [List.cons_append]
    unfold reported
    split
    · exact ih seen hrest hseen
    · split
      · exact List.mem_cons_of_mem _ (ih _ hrest hseen2)
      · exact ih _ hrest hseen2

theorem foldl_stepObs_sublist (w : World) (complete : Bool) (files : List ReadFile)
    (o : List String × List String) :
    ∃ l, (files.foldl (stepObs w complete) o).1 = o.1 ++ l ∧
      l.Sublist (files.map (fun f => f.url)) := by
  cases complete with
  | true =>
    refine ⟨_, by rw [foldl_stepObs_complete], ?_⟩
    exact (List.filter_sublist files).map _
  | false =>
    refine ⟨_, foldl_stepObs_dedup w files o, ?_⟩
    exact (reported_sublist w o.2 files).map _

theorem readEntry_url (scan_input : ScanInput) (short : String) (fs : Filesystem)
    (wf : FileInfo) (f : ReadFile) (h : readEntry scan_input short fs wf = some f) :
    f.url = file_url scan_input short wf.Name := by
  unfold readEntry at h
  split at h
  · cases h
  · split at h
    · split at h
      · cases h
      · split at h
        · cases h
        · split at h
          · cases h
          · cases h
            rfl
    · cases h

theorem filterMap_readEntry_sublist (scan_input : ScanInput) (short : String)
    (fs : Filesystem) (wf_dir : List FileInfo) :
    ((wf_dir.filterMap (readEntry scan_input short fs)).map (fun f => f.url)).Sublist
      (wf_dir.map (fun wf => file_url scan_input short wf.Name)) := by
  induction wf_dir with
  | nil => simp
  | cons wf rest ih =>
    rw [List.filterMap_cons]
    cases h : readEntry scan_input short fs wf with
    | none => exact ih.cons _
    | some f =>
      simp only [List.map_cons]
      rw [readEntry_url scan_input short fs wf f h]
      exact ih.cons₂ _

theorem branchFiles_sublist (w : World) (scan_input : ScanInput) (worktree : Worktree)
    (branch : ReferenceName) :
    ((branchFiles w scan_input worktree branch).map (fun f => f.url)).Sublist
      (branchURLs w scan_input worktree branch) := by
  unfold branchFiles branchURLs
  cases worktree.Checkout (checkoutOptions branch) with
  | error err => simp
  | ok fs =>
    simp only
    cases fs.ReadDir wf_path with
    | error err => simp
    | ok wf_dir => exact filterMap_readEntry_sublist scan_input (w.Short branch) fs wf_dir

theorem filesOf_sublist (w : World) (scan_input : ScanInput) (worktree : Worktree)
    (branches : List ReferenceName) :
    ((filesOf w scan_input worktree branches).map (fun f => f.url)).Sublist
      (branches.flatMap (branchURLs w scan_input worktree)) := by
  induction branches with
  | nil => simp [filesOf_nil]
  | cons branch rest ih =>
    rw [filesOf_cons, List.flatMap_cons]
    cases listingError worktree branch with
    | some err => simp
    | none =>
      simp only [List.map_append]
      exact (branchFiles_sublist w scan_input worktree branch).append ih

theorem stdout_blocks (w : World) (scan_input : ScanInput) (worktree : Worktree)
    (branch : ReferenceName) (rest : List ReferenceName) (o : List String × List String) :
    ∃ l0 l1, ((filesOf w scan_input worktree (branch :: rest)).foldl
        (stepObs w scan_input.Complete) o).1 = o.1 ++ (l0 ++ l1) ∧
      l0.Sublist (branchURLs w scan_input worktree branch) ∧
      l1.Sublist (rest.flatMap (branchURLs w scan_input worktree)) := by
  rw [filesOf_cons]
  cases listingError worktree branch with
  | some err => exact ⟨[], [], by simp, by simp, by simp⟩
  | none =>
    simp only [List.foldl_append]
    obtain ⟨l0, h0, s0⟩ := foldl_stepObs_sublist w scan_input.Complete
      (branchFiles w scan_input worktree branch) o
    obtain ⟨l1, h1, s1⟩ := foldl_stepObs_sublist w scan_input.Complete
      (filesOf w scan_input worktree rest)
      ((branchFiles w scan_input worktree branch).foldl (stepObs w scan_input.Complete) o)
    refine ⟨l0, l1, ?_, s0.trans (branchFiles_sublist w scan_input worktree branch),
      s1.trans (filesOf_sublist w scan_input worktree rest)⟩
    rw [h1, h0, List.append_assoc]

theorem stderr_print_err (str : String) (err : GoError) (st : State) :
    (print_err str err true st).stderr = st.stderr := rfl

theorem stderr_scanBuffer (w : World) (scan_input : ScanInput) (hq : scan_input.Quiet = true)
    (url : String) (buffer : Bytes) (st : State) :
    (scanBuffer w scan_input url buffer st).stderr = st.stderr := by
  unfold scanBuffer
  simp only [hq]
  split
  · rfl
  · split
    · rfl
    · split <;> rfl

theorem stderr_scanFile (w : World) (scan_input : ScanInput) (hq : scan_input.Quiet = true)
    (short : String) (fs : Filesystem) (st : State) (wf : FileInfo) :
    (scanFile w scan_input short fs st wf).stderr = st.stderr := by
  unfold scanFile
  split
  · rfl
  · split
    · rfl
    · simp only [hq]
      split
      · rfl
      · split
        · rfl
        · split
          · rfl
          · exact stderr_scanBuffer w scan_input hq _ _ st

theorem stderr_foldl_scanFile (w : World) (scan_input : ScanInput)
    (hq : scan_input.Quiet = true) (short : String) (fs : Filesystem)
    (wf_dir : List FileInfo) (st : State) :
    (wf_dir.foldl (scanFile w scan_input short fs) st).stderr = st.stderr := by
  induction wf_dir generalizing st with
  | nil => rfl
  | cons wf rest ih => rw [List.foldl_cons, ih, stderr_scanFile w scan_input hq]

theorem stderr_scanBranches (w : World) (scan_input : ScanInput)
    (hq : scan_input.Quiet = true) (worktree : Worktree) (branches : List ReferenceName)
    (st : State) :
    (scanBranches w scan_input worktree st branches).1.stderr = st.stderr := by
  induction branches generalizing st with
  | nil => rfl
  | cons branch rest ih =>
    unfold scanBranches
    simp only [hq, Bool.not_true, Bool.false_eq_true, if_false]
    split
    · split
      · rw [ih]
      · rw [ih]; rfl
    · split
      · split
        · rw [ih]
        · rfl
      · rw [ih, stderr_foldl_scanFile w scan_input hq]

theorem stderr_RunScan (ctx : Context) (w : World) (scan_input : ScanInput)
    (hq : scan_input.Quiet = true) : (RunScan ctx w scan_input).state.stderr = [] := by
  have hstart : (startState scan_input).stderr = [] := by
    unfold startState
    simp [hq]
  cases h : setup w scan_input with
  | error e =>
    obtain ⟨str, hr⟩ := RunScan_setup_error ctx w scan_input e h
    rw [hr]
    unfold fail
    simp only [hq]
    exact hstart
  | ok p =>
    obtain ⟨worktree, branches⟩ := p
    rw [RunScan_setup_ok ctx w scan_input worktree branches h]
    simp only
    rw [stderr_scanBranches w scan_input hq, hstart]

theorem foldl_branches (Short : ReferenceName → String) (default_branch : String)
    (refs : List ReferenceName) (acc : List ReferenceName) :
    refs.foldl
        (fun branches branch =>
          if Short branch != default_branch then branches ++ [branch] else branches) acc =
      acc ++ refs.filter (fun branch => Short branch != default_branch) := by
  induction refs generalizing acc with
  | nil => simp
  | cons r rest ih =>
    rw [List.foldl_cons, ih, List.filter_cons]
    by_cases h : (Short r != default_branch) = true
    · simp [h]
    · simp [h]

theorem scanFile_of_readEntry (w : World) (scan_input : ScanInput) (short : String)
    (fs : Filesystem) (st : State) (wf : FileInfo) (f : ReadFile)
    (h : readEntry scan_input short fs wf = some f) :
    scanFile w scan_input short fs st wf = scanBuffer w scan_input f.url f.bytes st := by
  unfold readEntry at h
  unfold scanFile
  by_cases hd : wf.IsDir = true
  · simp [hd] at h
  · by_cases hs : (HasSuffix wf.Name ".yml" || HasSuffix wf.Name ".yaml") = true
    · have hs2 : (!HasSuffix wf.Name ".yml" && !HasSuffix wf.Name ".yaml") = false := by
        cases h1 : HasSuffix wf.Name ".yml" <;> cases h2 : HasSuffix wf.Name ".yaml" <;>
          simp_all
      simp only [hd, hs, hs2, if_true, if_false, Bool.false_eq_true] at h ⊢
      cases ho : fs.Open (wf_path ++ "/" ++ wf.Name) with
      | error err => rw [ho] at h; cases h
      | ok wf_file =>
        rw [ho] at h
        simp only at h ⊢
        cases hst : wf_file.Stat with
        | error err => rw [hst] at h; cases h
        | ok size =>
          rw [hst] at h
          simp only at h ⊢
          cases hr : wf_file.Read size with
          | error err => rw [hr] at h; cases h
          | ok buffer =>
            rw [hr] at h
            simp only at h ⊢
            cases h
            rfl
    · simp [hd, hs] at h

theorem firstListingError_some (worktree : Worktree) (branches : List ReferenceName)
    (e : GoError) (h : firstListingError worktree branches = some e) :
    ∃ branch ∈ branches, listingError worktree branch = some e := by
  induction branches with
  | nil => simp [firstListingError] at h
  | cons branch rest ih =>
    unfold firstListingError at h
    cases hl : listingError worktree branch with
    | some e2 =>
      rw [hl] at h
      simp only at h
      exact ⟨branch, List.mem_cons_self _ _, by rw [hl, h]⟩
    | none =>
      rw [hl] at h
      obtain ⟨b, hb, hbe⟩ := ih h
      exact ⟨b, List.mem_cons_of_mem _ hb, hbe⟩

theorem listingError_some (worktree : Worktree) (branch : ReferenceName) (e : GoError) :
    listingError worktree branch = some e ↔
      ∃ fs, worktree.Checkout (checkoutOptions branch) = .ok fs ∧
        fs.ReadDir wf_path = .error e ∧ IsNotExist e = false := by
  unfold listingError
  cases hc : worktree.Checkout (checkoutOptions branch) with
  | error err => simp
  | ok fs =>
    simp only
    cases hr : fs.ReadDir wf_path with
    | ok wf_dir =>
      constructor
      · intro h
        cases h
      · rintro ⟨fs2, h1, h2, _⟩
        injection h1 with h1
        subst h1
        rw [hr] at h2
        cases h2
    | error err =>
      cases hne : IsNotExist err with
      | true =>
        simp only [hne, if_true]
        constructor
        · intro h
          cases h
        · rintro ⟨fs2, h1, h2, h3⟩
          injection h1 with h1
          subst h1
          rw [hr] at h2
          injection h2 with h2
          subst h2
          rw [hne] at h3
          cases h3
      | false =>
        simp only [hne, Bool.false_eq_true, if_false]
        constructor
        · intro h
          injection h with h
          subst h
          exact ⟨fs, rfl, hr, hne⟩
        · rintro ⟨fs2, h1, h2, h3⟩
          injection h1 with h1
          subst h1
          rw [hr] at h2
          injection h2 with h2
          subst h2
          rfl

theorem listing_recoverable (worktree : Worktree) (branch : ReferenceName)
    (h : listingError worktree branch = none) (fs : Filesystem) (e : GoError)
    (h1 : worktree.Checkout (checkoutOptions branch) = .ok fs)
    (h2 : fs.ReadDir wf_path = .error e) : IsNotExist e = true := by
  cases hne : IsNotExist e with
  | true => rfl
  | false =>
    rw [(listingError_some worktree branch e).mpr ⟨fs, h1, h2, hne⟩] at h
    cases h

/-! ## The claims -/

/-- C1. For a candidate file (an entry that is read successfully) whose bytes convert to a
JSON document, the file loop prints the finding exactly when the top-level `on` field
exists and its raw text has `pull_request_target` as a substring: with the trigger (and
the file not passed over as already scanned) the URL of the file is appended to the
output; without it nothing is printed.  Nothing is written to standard error in either
case, a document without `on` field prints nothing, and a document whose `on` field is
`"push"` prints nothing. -/
theorem C1_trigger_decision (w : World) (scan_input : ScanInput) (short : String)
    (fs : Filesystem) (st : State) (wf : FileInfo) (f : ReadFile) (jsonData : String)
    (hread : readEntry scan_input short fs wf = some f)
    (hjson : w.YAMLToJSON f.bytes = .ok jsonData) :
    (((w.Get jsonData "on").Exists = true ∧
        ∃ pre post, (w.Get jsonData "on").Raw.data = pre ++ "pull_request_target".data ++ post) →
      (scan_input.Complete = true ∨ hash f.bytes ∉ st.scanned_hashes) →
      (scanFile w scan_input short fs st wf).stdout = st.stdout ++ [f.url]) ∧
    (¬ ((w.Get jsonData "on").Exists = true ∧
        ∃ pre post, (w.Get jsonData "on").Raw.data = pre ++ "pull_request_target".data ++ post) →
      (scanFile w scan_input short fs st wf).stdout = st.stdout) ∧
    (scanFile w scan_input short fs st wf).stderr = st.stderr ∧
    ((w.Get jsonData "on").Exists = false →
      (scanFile w scan_input short fs st wf).stdout = st.stdout) ∧
    ((w.Get jsonData "on").Raw = "\"push\"" →
      (scanFile w scan_input short fs st wf).stdout = st.stdout) := by
  rw [scanFile_of_readEntry w scan_input short fs st wf f hread]
  have hno : ¬ ((w.Get jsonData "on").Exists = true ∧
        ∃ pre post, (w.Get jsonData "on").Raw.data = pre ++ "pull_request_target".data ++ post) →
      (scanBuffer w scan_input f.url f.bytes st).stdout = st.stdout := by
    intro hn
    unfold scanBuffer
    simp only [hjson]
    split
    · rfl
    · split
      · rename_i ht
        exfalso
        apply hn
        simp only [Bool.and_eq_true] at ht
        exact ⟨ht.1, (Contains_iff _ _).mp ht.2⟩
      · rfl
  refine ⟨?_, hno, ?_, ?_, ?_⟩
  · rintro ⟨hex, hsub⟩ hskip
    have hc : Contains (w.Get jsonData "on").Raw "pull_request_target" = true :=
      (Contains_iff _ _).mpr hsub
    rcases hskip with h | h
    · simp [scanBuffer, hjson, hex, hc, h]
    · simp [scanBuffer, hjson, hex, hc, h]
  · unfold scanBuffer
    simp only [hjson]
    split
    · rfl
    · split <;> rfl
  · intro hex
    apply hno
    rintro ⟨h, _⟩
    rw [hex] at h
    cases h
  · intro hraw
    apply hno
    rintro ⟨_, pre, post, h⟩
    rw [hraw] at h
    have h1 : "\"push\"".data.length = 6 := by decide
    have h2 : "pull_request_target".data.length = 19 := by decide
    have hlen := congrArg List.length h
    rw [List.length_append, List.length_append, h1, h2] at hlen
    omega

/-- Witness of C1: in the workflow directory of `roughWorld`, `ci.yml` has the trigger and
its URL is printed; `push.yml` has an `on` field without it and nothing is printed. -/
theorem C1_trigger_decision_witness :
    readEntry (exampleInput false false) "main" (memFS roughEntries)
        { Name := "ci.yml", IsDir := false } = some ciFile ∧
      roughWorld.YAMLToJSON ciFile.bytes = .ok "\x7b\"on\": \"pull_request_target\"\x7d\n" ∧
      (scanFile roughWorld (exampleInput false false) "main" (memFS roughEntries) emptyState
        { Name := "ci.yml", IsDir := false }).stdout = emptyState.stdout ++ [ciFile.url] ∧
      readEntry (exampleInput false false) "main" (memFS roughEntries)
        { Name := "push.yml", IsDir := false } = some pushFile ∧
      roughWorld.YAMLToJSON pushFile.bytes = .ok "\x7b\"on\": \"push\"\x7d\n" ∧
      (scanFile roughWorld (exampleInput false false) "main" (memFS roughEntries) emptyState
        { Name := "push.yml", IsDir := false }).stdout = emptyState.stdout :=
  ⟨by decide, rfl,
    (C1_trigger_decision roughWorld (exampleInput false false) "main" (memFS roughEntries)
      emptyState { Name := "ci.yml", IsDir := false } ciFile
      "\x7b\"on\": \"pull_request_target\"\x7d\n" (by decide) rfl).1
      ⟨by decide, "\"".data, "\"".data, by decide⟩ (Or.inr (by decide)),
    by decide, rfl,
    (C1_trigger_decision roughWorld (exampleInput false false) "main" (memFS roughEntries)
      emptyState { Name := "push.yml", IsDir := false } pushFile
      "\x7b\"on\": \"push\"\x7d\n" (by decide) rfl).2.2.2.2 (by decide)⟩

/-- C2. In a scan without `Complete`, the printed findings are the URLs of a sublist
`rep` of the files read (in discovery order over all branches and all files of a branch)
in which no byte content occurs twice, and every file of `rep` stands in the list of
files read at a place with no earlier file of the same content. -/
theorem C2_dedup_at_most_one (ctx : Context) (w : World) (scan_input : ScanInput)
    (hc : scan_input.Complete = false) :
    ∃ rep : List ReadFile,
      (RunScan ctx w scan_input).state.stdout = rep.map (fun f => f.url) ∧
      rep.Sublist (filesRead w scan_input) ∧
      (∀ b : Bytes, rep.countP (fun f => decide (f.bytes = b)) ≤ 1) ∧
      (∀ f ∈ rep, ∃ pre post, filesRead w scan_input = pre ++ f :: post ∧
        ∀ g ∈ pre, g.bytes ≠ f.bytes) := by
  refine ⟨reported w [] (filesRead w scan_input), ?_, reported_sublist _ _ _,
    reported_count _ _ _, ?_⟩
  · have h := congrArg Prod.fst (obs_RunScan ctx w scan_input)
    rw [hc, foldl_stepObs_dedup] at h
    simpa [obs] using h
  · intro f hf
    obtain ⟨pre, post, hsplit, hpre⟩ := reported_earliest w [] _ f hf
    exact ⟨pre, post, hsplit, fun g hg hb => hpre g hg (by rw [hb])⟩

/-- Witness of C2: with `main` and `feature` holding the same matching `ci.yml`, the scan
without `Complete` prints one finding, the one for `main`. -/
theorem C2_dedup_at_most_one_witness :
    (exampleInput false false).Complete = false ∧
      (∃ rep : List ReadFile,
        (RunScan background twinWorld (exampleInput false false)).state.stdout =
          rep.map (fun f => f.url) ∧
        rep.Sublist (filesRead twinWorld (exampleInput false false)) ∧
        (∀ b : Bytes, rep.countP (fun f => decide (f.bytes = b)) ≤ 1) ∧
        (∀ f ∈ rep, ∃ pre post,
          filesRead twinWorld (exampleInput false false) = pre ++ f :: post ∧
          ∀ g ∈ pre, g.bytes ≠ f.bytes)) ∧
      filesRead twinWorld (exampleInput false false) = [ciFile, ciFeatureFile] ∧
      (RunScan background twinWorld (exampleInput false false)).state.stdout = [ciFile.url] :=
  ⟨rfl, C2_dedup_at_most_one background twinWorld (exampleInput false false) rfl,
    by decide, by decide⟩

/-- C3. In a scan with `Complete` that ends without a fatal error, the printed findings
are the URLs of the files read (non-directory entries named `*.yml` or `*.yaml` of the
successfully checked-out branches, read without error) that convert and match the
trigger, over the branches in list order and the entries in listing order; the scanned
hashes are the hashes of all files read, none is passed over; `CI.YML` is no candidate. -/
theorem C3_complete_scan (ctx : Context) (w : World) (scan_input : ScanInput)
    (hc : scan_input.Complete = true) (he : (RunScan ctx w scan_input).err = none) :
    (RunScan ctx w scan_input).state.stdout =
      ((allFiles w scan_input).filter (fun f => matchesTrigger w f.bytes)).map
        (fun f => f.url) ∧
    (RunScan ctx w scan_input).state.scanned_hashes =
      (allFiles w scan_input).map (fun f => hash f.bytes) ∧
    (∀ short fs, readEntry scan_input short fs { Name := "CI.YML", IsDir := false } = none) := by
  have h := obs_RunScan ctx w scan_input
  rw [hc, foldl_stepObs_complete, filesRead_eq_allFiles ctx w scan_input he] at h
  refine ⟨?_, ?_, ?_⟩
  · simpa [obs] using congrArg Prod.fst h
  · simpa [obs] using congrArg Prod.snd h
  · intro short fs
    have h1 : HasSuffix "CI.YML" ".yml" = false := by decide
    have h2 : HasSuffix "CI.YML" ".yaml" = false := by decide
    simp [readEntry, h1, h2]

/-- Witness of C3: with `main` and `feature` holding the same matching `ci.yml`, the scan
with `Complete` prints two findings, `main` first. -/
theorem C3_complete_scan_witness :
    (exampleInput true false).Complete = true ∧
      (RunScan background twinWorld (exampleInput true false)).err = none ∧
      (RunScan background twinWorld (exampleInput true false)).state.stdout =
        ((allFiles twinWorld (exampleInput true false)).filter
          (fun f => matchesTrigger twinWorld f.bytes)).map (fun f => f.url) ∧
      (RunScan background twinWorld (exampleInput true false)).state.stdout =
        [ciFile.url, ciFeatureFile.url] :=
  ⟨rfl, by decide,
    (C3_complete_scan background twinWorld (exampleInput true false) rfl (by decide)).1,
    by decide⟩

/-- C4. The branch list is the HEAD reference followed by the enumerated references whose
short name differs from the short name of HEAD, in enumeration order; so HEAD is at
index 0 and no later entry has its short name. -/
theorem C4_branch_list (Short : ReferenceName → String) (head : ReferenceName)
    (refs : List ReferenceName) :
    branchList Short head refs = head :: refs.filter (fun r => Short r != Short head) ∧
    (branchList Short head refs)[0]? = some head ∧
    (∀ r ∈ (branchList Short head refs).tail, Short r ≠ Short head) := by
  have h : branchList Short head refs =
      head :: refs.filter (fun r => Short r != Short head) := by
    unfold branchList
    simp only
    rw [foldl_branches]
    rfl
  refine ⟨h, by rw [h]; simp, ?_⟩
  rw [h]
  intro r hr
  simp only [List.tail_cons, List.mem_filter] at hr
  simpa using hr.2

/-- Witness of C4: HEAD `main` and the enumeration `feature`, `main`, `zeta` give the list
`main`, `feature`, `zeta`. -/
theorem C4_branch_list_witness :
    branchList shortName "refs/heads/main"
        ["refs/heads/feature", "refs/heads/main", "refs/heads/zeta"] =
      ["refs/heads/main", "refs/heads/feature", "refs/heads/zeta"] ∧
    ∀ r ∈ (branchList shortName "refs/heads/main"
        ["refs/heads/feature", "refs/heads/main", "refs/heads/zeta"]).tail,
      shortName r ≠ shortName "refs/heads/main" :=
  ⟨by decide,
    (C4_branch_list shortName "refs/heads/main"
      ["refs/heads/feature", "refs/heads/main", "refs/heads/zeta"]).2.2⟩

/-- Counterexample to C5: `a.yml` and `b.yml` both match the trigger and differ in their
bytes, their FNV-1a sums agree, and the scan without `Complete` ends without error and
prints no finding for `b.yml`. -/
theorem C5_counterexample :
    (exampleInput false false).Complete = false ∧
      (RunScan background collisionWorld (exampleInput false false)).err = none ∧
      allFiles collisionWorld (exampleInput false false) =
        [costarringFile] ++ liquidFile :: [] ∧
      matchesTrigger collisionWorld liquidFile.bytes = true ∧
      (∀ g ∈ [costarringFile], g.bytes ≠ liquidFile.bytes) ∧
      hash costarringFile.bytes = hash liquidFile.bytes ∧
      liquidFile.url ∉ (RunScan background collisionWorld (exampleInput false false)).state.stdout := by
  decide

/-- C5 (amended). In a scan without `Complete` that ends without a fatal error, a file
read that matches the trigger and whose hash differs from the hash of every file read
earlier in the scan produces a finding. -/
theorem C5_distinct_hash_reported (ctx : Context) (w : World) (scan_input : ScanInput)
    (hc : scan_input.Complete = false) (he : (RunScan ctx w scan_input).err = none)
    (pre : List ReadFile) (f : ReadFile) (post : List ReadFile)
    (hfiles : allFiles w scan_input = pre ++ f :: post)
    (ht : matchesTrigger w f.bytes = true)
    (hpre : ∀ g ∈ pre, hash g.bytes ≠ hash f.bytes) :
    f.url ∈ (RunScan ctx w scan_input).state.stdout := by
  have h := congrArg Prod.fst (obs_RunScan ctx w scan_input)
  rw [hc, foldl_stepObs_dedup, filesRead_eq_allFiles ctx w scan_input he, hfiles] at h
  have hout : (RunScan ctx w scan_input).state.stdout =
      (reported w [] (pre ++ f :: post)).map (fun f => f.url) := by
    simpa [obs] using h
  rw [hout]
  exact List.mem_map_of_mem _ (mem_reported w [] pre f post hpre (by simp) ht)

/-- Witness of C5: in `roughWorld`, `ci.yml` comes after two files of other hashes and
matches the trigger; its URL is printed. -/
theorem C5_distinct_hash_reported_witness :
    (exampleInput false false).Complete = false ∧
      (RunScan background roughWorld (exampleInput false false)).err = none ∧
      allFiles roughWorld (exampleInput false false) = [pushFile, brokenFile] ++ ciFile :: [] ∧
      matchesTrigger roughWorld ciFile.bytes = true ∧
      (∀ g ∈ [pushFile, brokenFile], hash g.bytes ≠ hash ciFile.bytes) ∧
      ciFile.url ∈ (RunScan background roughWorld (exampleInput false false)).state.stdout :=
  ⟨rfl, by decide, by decide, by decide, by decide,
    C5_distinct_hash_reported background roughWorld (exampleInput false false) rfl (by decide)
      [pushFile, brokenFile] ciFile [] (by decide) (by decide) (by decide)⟩

/-- Counterexample to C6: the worktree lookup fails and `RunScan` returns its error, while
the clone, the resolution of HEAD and the enumeration succeed and no listing fails. -/
theorem C6_counterexample :
    (RunScan background bareWorld (exampleInput false false)).err =
        some (.other "worktree not available in a bare repository") ∧
      ∀ e, ¬ CloneFailed bareWorld (exampleInput false false) e ∧
        ¬ HeadFailed bareWorld (exampleInput false false) e ∧
        ¬ EnumerationFailed bareWorld (exampleInput false false) e ∧
        ¬ ListingFailed bareWorld (exampleInput false false) e := by
  refine ⟨by decide, fun e => ⟨?_, ?_, ?_, ?_⟩⟩
  · intro h
    cases h
  · rintro ⟨repository, h1, h2⟩
    cases h1
    cases h2
  · rintro ⟨repository, h1, h2 | ⟨it, h2, h3⟩⟩
    · cases h1
      cases h2
    · cases h1
      cases h2
      cases h3
  · rintro ⟨repository, worktree, it, head, h1, h2, _⟩
    cases h1
    cases h2

/-- C6 (amended). When `RunScan` returns the error `e`, one of five conditions occurred
with `e`: the clone failed, the worktree lookup failed, resolving HEAD failed, enumerating
the branches failed, or the listing of the workflow directory of some branch failed with
an error other than not-exist; and each of the five makes `RunScan` return an error. -/
theorem C6_fatal_errors (ctx : Context) (w : World) (scan_input : ScanInput) :
    (∀ e, (RunScan ctx w scan_input).err = some e →
      CloneFailed w scan_input e ∨ WorktreeFailed w scan_input e ∨ HeadFailed w scan_input e ∨
        EnumerationFailed w scan_input e ∨ ListingFailed w scan_input e) ∧
    (∀ e, CloneFailed w scan_input e ∨ WorktreeFailed w scan_input e ∨
        HeadFailed w scan_input e ∨ EnumerationFailed w scan_input e ∨
        ListingFailed w scan_input e →
      (RunScan ctx w scan_input).err ≠ none) := by
  rw [err_RunScan]
  unfold setup CloneFailed WorktreeFailed HeadFailed EnumerationFailed ListingFailed
  cases hcl : w.Clone (cloneOptions scan_input) with
  | error err =>
    constructor
    · intro e h
      cases h
      exact Or.inl rfl
    · intro e _
      simp
  | ok repository =>
    simp only
    cases hw : repository.Worktree with
    | error err =>
      constructor
      · intro e h
        cases h
        exact Or.inr (Or.inl ⟨repository, rfl, hw⟩)
      · intro e _
        simp
    | ok worktree =>
      simp only
      cases hb : repository.Branches with
      | error err =>
        constructor
        · intro e h
          cases h
          exact Or.inr (Or.inr (Or.inr (Or.inl ⟨repository, rfl, Or.inl hb⟩)))
        · intro e _
          simp
      | ok it =>
        simp only
        cases hh : repository.Head with
        | error err =>
          constructor
          · intro e h
            cases h
            exact Or.inr (Or.inr (Or.inl ⟨repository, rfl, hh⟩))
          · intro e _
            simp
        | ok head =>
          simp only
          cases hi : it.err with
          | some err =>
            constructor
            · intro e h
              cases h
              exact Or.inr (Or.inr (Or.inr (Or.inl ⟨repository, rfl, Or.inr ⟨it, hb, hi⟩⟩)))
            · intro e _
              simp
          | none =>
            simp only
            constructor
            · intro e h
              obtain ⟨branch, hmem, hl⟩ := firstListingError_some worktree _ e h
              obtain ⟨fs, h1, h2, h3⟩ := (listingError_some worktree branch e).mp hl
              exact Or.inr (Or.inr (Or.inr (Or.inr
                ⟨repository, worktree, it, head, rfl, hw, hb, hh, branch, hmem, fs, h1, h2, h3⟩)))
            · intro e h hnone
              rcases h with h | ⟨r, h, h2⟩ | ⟨r, h, h2⟩ | ⟨r, h, h2⟩ | h
              · cases h
              · cases h
                rw [hw] at h2
                cases h2
              · cases h
                rw [hh] at h2
                cases h2
              · cases h
                rcases h2 with h2 | ⟨it2, h2, h3⟩
                · rw [hb] at h2
                  cases h2
                · rw [hb] at h2
                  cases h2
                  rw [hi] at h3
                  cases h3
              · obtain ⟨r, wt2, it2, head2, h1, h2, h3, h4, branch, hmem, fs, h5, h6, h7⟩ := h
                cases h1
                rw [hw] at h2
                cases h2
                rw [hb] at h3
                cases h3
                rw [hh] at h4
                cases h4
                rw [firstListingError_eq_none] at hnone
                have hl := (listingError_some worktree branch e).mpr ⟨fs, h5, h6, h7⟩
                rw [hnone branch hmem] at hl
                cases hl

/-- Witness of C6: the listing of the workflow directory of `main` fails with an
input/output error, and `RunScan` returns an error. -/
theorem C6_fatal_errors_witness :
    ListingFailed fatalWorld (exampleInput false false) (.other "input/output error") ∧
      (RunScan background fatalWorld (exampleInput false false)).err ≠ none :=
  have h : ListingFailed fatalWorld (exampleInput false false) (.other "input/output error") :=
    ⟨fatalRepository, memWorktree fatalBranches, _, "refs/heads/main", rfl, rfl, rfl, rfl,
      "refs/heads/main", by decide, _, rfl, rfl, rfl⟩
  ⟨h, (C6_fatal_errors background fatalWorld (exampleInput false false)).2 _
    (Or.inr (Or.inr (Or.inr (Or.inr h))))⟩

/-- C7. When the clone, the worktree lookup, the branch enumeration and the resolution
of HEAD succeed, and every listing of a workflow directory after a successful checkout
succeeds or fails with not-exist, `RunScan` returns `("Scan completed successfully", nil)`,
whatever the checkouts, the files and the YAML conversion do. -/
theorem C7_recoverable_failures (ctx : Context) (w : World) (scan_input : ScanInput)
    (repository : Repository) (worktree : Worktree) (it : ReferenceIter)
    (head : ReferenceName)
    (hclone : w.Clone (cloneOptions scan_input) = .ok repository)
    (hworktree : repository.Worktree = .ok worktree)
    (hbranches : repository.Branches = .ok it)
    (hiter : it.err = none)
    (hhead : repository.Head = .ok head)
    (hlist : ∀ branch ∈ branchList w.Short head it.refs, ∀ fs e,
      worktree.Checkout (checkoutOptions branch) = .ok fs →
      fs.ReadDir wf_path = .error e → IsNotExist e = true) :
    (RunScan ctx w scan_input).message = "Scan completed successfully" ∧
    (RunScan ctx w scan_input).err = none := by
  have hsetup : setup w scan_input = .ok (worktree, branchList w.Short head it.refs) := by
    unfold setup
    simp [hclone, hworktree, hbranches, hiter, hhead]
  have herr : (RunScan ctx w scan_input).err = none := by
    rw [err_RunScan, hsetup]
    simp only
    rw [firstListingError_eq_none]
    intro branch hmem
    cases hl : listingError worktree branch with
    | none => rfl
    | some e =>
      obtain ⟨fs, h1, h2, h3⟩ := (listingError_some worktree branch e).mp hl
      rw [hlist branch hmem fs e h1 h2] at h3
      cases h3
  refine ⟨?_, herr⟩
  rw [message_RunScan, herr]

/-- Witness of C7: in `roughWorld` two checkouts fail, a branch has no workflow directory,
files fail to open, to stat and to read and a file is malformed; the scan succeeds. -/
theorem C7_recoverable_failures_witness :
    roughWorld.Clone (cloneOptions (exampleInput false false)) = .ok roughRepository ∧
      (∀ branch ∈ branchList roughWorld.Short "refs/heads/main"
          (roughBranches.map (fun b => b.1)),
        listingError (memWorktree roughBranches) branch = none) ∧
      (RunScan background roughWorld (exampleInput false false)).message =
        "Scan completed successfully" ∧
      (RunScan background roughWorld (exampleInput false false)).err = none :=
  ⟨rfl, by decide,
    C7_recoverable_failures background roughWorld (exampleInput false false) roughRepository
      (memWorktree roughBranches) { refs := roughBranches.map (fun b => b.1), err := none }
      "refs/heads/main" rfl rfl rfl rfl rfl
      (fun branch hmem fs e h1 h2 =>
        listing_recoverable (memWorktree roughBranches) branch
          ((by decide : ∀ branch ∈ branchList roughWorld.Short "refs/heads/main"
              (roughBranches.map (fun b => b.1)),
            listingError (memWorktree roughBranches) branch = none) branch hmem) fs e h1 h2)⟩

/-- C8. The printed findings are a sublist of the display URLs
`<RepositoryURL>/blob/<short name>/.github/workflows/<file name>` of the directory entries
taken over the branch list in order and, within a branch, in listing order; they split
into a block of findings of the first (default) branch followed by a block of findings of
the other branches. -/
theorem C8_output_order (ctx : Context) (w : World) (scan_input : ScanInput) :
    (RunScan ctx w scan_input).state.stdout.Sublist (listedURLs w scan_input) ∧
    listedURLs w scan_input = defaultBranchURLs w scan_input ++ otherBranchURLs w scan_input ∧
    (∃ l0 l1, (RunScan ctx w scan_input).state.stdout = l0 ++ l1 ∧
      l0.Sublist (defaultBranchURLs w scan_input) ∧
      l1.Sublist (otherBranchURLs w scan_input)) ∧
    (∀ short name, file_url scan_input short name =
      scan_input.RepositoryURL ++ "/blob/" ++ short ++ "/.github/workflows/" ++ name) := by
  have hout : (RunScan ctx w scan_input).state.stdout =
      ((filesRead w scan_input).foldl (stepObs w scan_input.Complete) ([], [])).1 := by
    have h := congrArg Prod.fst (obs_RunScan ctx w scan_input)
    simpa [obs] using h
  have hurl : ∀ short name, file_url scan_input short name =
      scan_input.RepositoryURL ++ "/blob/" ++ short ++ "/.github/workflows/" ++ name := by
    intro short name
    unfold file_url wf_path
    simp [String.append_assoc]
  have hsplit : listedURLs w scan_input =
        defaultBranchURLs w scan_input ++ otherBranchURLs w scan_input ∧
      (∃ l0 l1, (RunScan ctx w scan_input).state.stdout = l0 ++ l1 ∧
        l0.Sublist (defaultBranchURLs w scan_input) ∧
        l1.Sublist (otherBranchURLs w scan_input)) := by
    rw [hout]
    unfold listedURLs defaultBranchURLs otherBranchURLs filesRead
    cases hs : setup w scan_input with
    | error e => exact ⟨rfl, [], [], rfl, List.Sublist.refl _, List.Sublist.refl _⟩
    | ok p =>
      obtain ⟨worktree, branches⟩ := p
      cases branches with
      | nil => exact ⟨rfl, [], [], rfl, List.Sublist.refl _, List.Sublist.refl _⟩
      | cons branch rest =>
        simp only
        obtain ⟨l0, l1, h, s0, s1⟩ := stdout_blocks w scan_input worktree branch rest ([], [])
        exact ⟨by rw [List.flatMap_cons], l0, l1, by simpa using h, s0, s1⟩
  obtain ⟨h1, l0, l1, h2, s0, s1⟩ := hsplit
  refine ⟨?_, h1, ⟨l0, l1, h2, s0, s1⟩, hurl⟩
  rw [h1, h2]
  exact s0.append s1

/-- Counterexample to C9: the context is cancelled when `RunScan` is called, and the scan
goes through the branches and prints a finding. -/
theorem C9_counterexample :
    cancelledContext.Err ≠ none ∧
      (RunScan cancelledContext twinWorld (exampleInput false false)).state.stdout =
        [ciFile.url] ∧
      (RunScan cancelledContext twinWorld (exampleInput false false)).state.stderr =
        ["Started analyzing https://github.com/o/r\n",
          "Scanning https://github.com/o/r/tree/main\n",
          "Scanning https://github.com/o/r/tree/feature\n"] := by
  decide

/-- C9 (amended). `RunScan` never polls the context: the outcome of a scan whose context
is cancelled when `RunScan` is called is the outcome of the same scan with a live
context. -/
theorem C9_context_ignored (e : GoError) (w : World) (scan_input : ScanInput) :
    RunScan { Err := some e } w scan_input = RunScan { Err := none } w scan_input := rfl

/-- C10. Two runs that differ only in `Quiet` print the same findings and return the same
message and error, and a run with `Quiet` writes nothing to standard error. -/
theorem C10_quiet (ctx : Context) (w : World) (scan_input : ScanInput) (q1 q2 : Bool) :
    (RunScan ctx w { scan_input with Quiet := q1 }).state.stdout =
      (RunScan ctx w { scan_input with Quiet := q2 }).state.stdout ∧
    (RunScan ctx w { scan_input with Quiet := q1 }).message =
      (RunScan ctx w { scan_input with Quiet := q2 }).message ∧
    (RunScan ctx w { scan_input with Quiet := q1 }).err =
      (RunScan ctx w { scan_input with Quiet := q2 }).err ∧
    (RunScan ctx w { scan_input with Quiet := true }).state.stderr = [] := by
  have herr : (RunScan ctx w { scan_input with Quiet := q1 }).err =
      (RunScan ctx w { scan_input with Quiet := q2 }).err := by
    rw [err_RunScan, err_RunScan]
    rfl
  refine ⟨?_, ?_, herr, stderr_RunScan ctx w _ rfl⟩
  · have h1 := congrArg Prod.fst (obs_RunScan ctx w { scan_input with Quiet := q1 })
    have h2 := congrArg Prod.fst (obs_RunScan ctx w { scan_input with Quiet := q2 })
    simp only [obs] at h1 h2
    rw [h1, h2]
    rfl
  · rw [message_RunScan, message_RunScan ctx w { scan_input with Quiet := q2 }, herr]

end PRTscan
